import Mathlib

/-!
Verification development for `artefact_adder.py`, a single-file video
degradation pipeline.  Frames are modelled as height × width × 3 grids of
8-bit channel values (represented as `Nat`); randomness is modelled by
passing the random draws explicitly, with the support of each numpy random
primitive recorded as a predicate on the draws.  Calls into OpenCV whose
internals are outside the repository (JPEG codec, `cv2.undistort`, the
Gaussian vignetting mask, `cv2.randn`) are modelled as injected function
parameters; everything the repository itself computes is embedded directly.
-/

/-- A decoded video frame: `h × w` pixels, 3 channels (`px y x c`).
Mirrors the numpy array `frame` of shape `(h, w, 3)`, dtype uint8. -/
structure Frame where
  h : Nat
  w : Nat
  px : Nat → Nat → Nat → Nat

/-- Model of `color_banding` (artefact_adder.py line 30):
`(frame // (256 // levels)) * (256 // levels)` applied per channel value.
Python `//` on non-negative ints is `Nat` division. -/
def color_banding (f : Frame) (levels : Nat) : Frame :=
  ⟨f.h, f.w, fun y x c => (f.px y x c / (256 / levels)) * (256 / levels)⟩

/-- Simultaneous fancy-indexing assignment
`noisy_frame[rows, cols, :] = v` for a constant `v`: every listed
`(row, col)` location has all three channels set to `v`. -/
def writePixels (f : Frame) (coords : List (Nat × Nat)) (v : Nat) : Frame :=
  ⟨f.h, f.w, fun y x c => if (y, x) ∈ coords then v else f.px y x c⟩

/-- Value of `int(np.ceil(amount * frame.size * 0.5))` (lines 36-37); numpy
`frame.size` is the element count `h * w * 3`. -/
def numSalt (f : Frame) (amount : ℚ) : Nat :=
  (⌈amount * ((f.h : ℚ) * (f.w : ℚ) * 3) * (1 / 2)⌉).toNat

/-- Support of `np.random.randint(0, bound - 1, n)` (lines 39 and 42): the
high end is exclusive, so each draw lies in `[0, bound - 2]`. -/
def randintOK (bound : Nat) (l : List Nat) : Prop := ∀ r ∈ l, r < bound - 1

instance (bound : Nat) (l : List Nat) : Decidable (randintOK bound l) :=
  List.decidableBAll _ l

/-- Model of `salt_and_pepper_noise` (lines 34-45) with the random row/column draws
passed explicitly.  The code draws one coordinate array per axis of
`frame.shape` but uses only `coords[0]` (rows) and `coords[1]` (columns);
the unused channel-axis draws are omitted.  Salt (255) is written first,
then pepper (0), so pepper wins where the two coordinate lists collide. -/
def salt_and_pepper_noise (f : Frame) (saltR saltC pepR pepC : List Nat) : Frame :=
  writePixels (writePixels f (saltR.zip saltC) 255) (pepR.zip pepC) 0

/-- Outputs reachable from `salt_and_pepper_noise f amount` under the
code's actual sampling: four draw lists of length `numSalt`, rows drawn
from `randint(0, h - 1)` and columns from `randint(0, w - 1)`. -/
def spn_reachable (f : Frame) (amount : ℚ) (g : Frame) : Prop :=
  ∃ sR sC pR pC : List Nat,
    sR.length = numSalt f amount ∧ sC.length = numSalt f amount ∧
    pR.length = numSalt f amount ∧ pC.length = numSalt f amount ∧
    randintOK f.h sR ∧ randintOK f.w sC ∧ randintOK f.h pR ∧ randintOK f.w pC ∧
    g = salt_and_pepper_noise f sR sC pR pC

/-- Count of salt (and of pepper) locations as the specification words it:
`ceil(amount × frame pixel-count × 0.5)` with pixel count `h * w`. -/
def numSaltSpec (f : Frame) (amount : ℚ) : Nat :=
  (⌈amount * ((f.h : ℚ) * (f.w : ℚ)) * (1 / 2)⌉).toNat

/-- Outputs the specification claims to be reachable: draw lists of length
`numSaltSpec`, sampled over the full row range `[0, h - 1]` and the full
column range `[0, w - 1]`. -/
def spn_reachable_spec (f : Frame) (amount : ℚ) (g : Frame) : Prop :=
  ∃ sR sC pR pC : List Nat,
    sR.length = numSaltSpec f amount ∧ sC.length = numSaltSpec f amount ∧
    pR.length = numSaltSpec f amount ∧ pC.length = numSaltSpec f amount ∧
    (∀ r ∈ sR, r < f.h) ∧ (∀ x ∈ sC, x < f.w) ∧
    (∀ r ∈ pR, r < f.h) ∧ (∀ x ∈ pC, x < f.w) ∧
    g = salt_and_pepper_noise f sR sC pR pC

/-- A concrete 2 × 2 frame, every channel value 7. -/
def cexFrame : Frame := ⟨2, 2, fun _ _ _ => 7⟩

/-- Output the specification's sampling description permits on `cexFrame`
with `amount = 1`: both draws hit the bottom-right pixel `(1, 1)`. -/
def cexSpecOutput : Frame :=
  salt_and_pepper_noise cexFrame [1, 1] [1, 1] [1, 1] [1, 1]

theorem numSalt_cexFrame : numSalt cexFrame 1 = 6 := by
  norm_num [numSalt, cexFrame]; rfl

theorem numSaltSpec_cexFrame : numSaltSpec cexFrame 1 = 2 := by
  norm_num [numSaltSpec, cexFrame]; rfl

theorem mem_zip_left {a b : Nat} {l1 l2 : List Nat} (h : (a, b) ∈ l1.zip l2) : a ∈ l1 :=
  (List.of_mem_zip h).1

theorem mem_zip_right {a b : Nat} {l1 l2 : List Nat} (h : (a, b) ∈ l1.zip l2) : b ∈ l2 :=
  (List.of_mem_zip h).2

/-- C1 counterexample core: on a 2 × 2 frame the code's row draws come from
`randint(0, 1)` and hence are always 0, so no execution can touch row 1. -/
theorem spn_not_reachable_cex : ¬ spn_reachable cexFrame 1 cexSpecOutput := by
  rintro ⟨sR, sC, pR, pC, -, -, -, -, h1, -, h3, -, heq⟩
  have hnp : (1, 1) ∉ pR.zip pC := by
    intro hmem
    have := h3 1 (mem_zip_left hmem)
    simp [cexFrame] at this
  have hns : (1, 1) ∉ sR.zip sC := by
    intro hmem
    have := h1 1 (mem_zip_left hmem)
    simp [cexFrame] at this
  have hval : (salt_and_pepper_noise cexFrame sR sC pR pC).px 1 1 0 = 7 := by
    simp only [salt_and_pepper_noise, writePixels]
    rw [if_neg hnp, if_neg hns]
    rfl
  have h0 : cexSpecOutput.px 1 1 0 = 0 := by decide
  rw [heq, hval] at h0
  exact absurd h0 (by decide)

/-- C1 (corrected): the specification's sampling description ("full row
index range and full column index range", size from the pixel count) admits
an output that the code can never produce: on the 2 × 2 frame `cexFrame`
with `amount = 1` the spec permits setting pixel `(1, 1)` to pepper, but
every code execution draws rows and columns from `randint(0, dim - 1)`,
whose support excludes the last row and column. -/
theorem salt_pepper_full_range_counterexample :
    spn_reachable_spec cexFrame 1 cexSpecOutput ∧ ¬ spn_reachable cexFrame 1 cexSpecOutput := by
  refine ⟨⟨[1, 1], [1, 1], [1, 1], [1, 1],
      by simp [numSaltSpec_cexFrame], by simp [numSaltSpec_cexFrame],
      by simp [numSaltSpec_cexFrame], by simp [numSaltSpec_cexFrame],
      by decide, by decide, by decide, by decide, rfl⟩,
    spn_not_reachable_cex⟩

/-- C1 (amended): with draw lists of the length the code actually computes
(`ceil(amount * h * w * 3 * 0.5)`, from numpy `frame.size`) and entries in
the actual `randint` support `[0, h - 2]` resp. `[0, w - 2]`, the output
sets all channels of the pepper locations to 0, of the remaining salt
locations to 255, and changes nothing else; dimensions are preserved. -/
theorem salt_pepper_characterization (f : Frame) (amount : ℚ) (sR sC pR pC : List Nat)
    (hsR : sR.length = numSalt f amount) (hsC : sC.length = numSalt f amount)
    (hpR : pR.length = numSalt f amount) (hpC : pC.length = numSalt f amount)
    (h1 : randintOK f.h sR) (h2 : randintOK f.w sC)
    (h3 : randintOK f.h pR) (h4 : randintOK f.w pC) :
    (salt_and_pepper_noise f sR sC pR pC).h = f.h ∧
    (salt_and_pepper_noise f sR sC pR pC).w = f.w ∧
    ∀ y x c,
      (salt_and_pepper_noise f sR sC pR pC).px y x c =
        if (y, x) ∈ pR.zip pC then 0
        else if (y, x) ∈ sR.zip sC then 255
        else f.px y x c := by
  refine ⟨rfl, rfl, fun y x c => ?_⟩
  by_cases hp : (y, x) ∈ pR.zip pC <;> by_cases hs : (y, x) ∈ sR.zip sC <;>
    simp [salt_and_pepper_noise, writePixels, hp, hs]

theorem salt_pepper_characterization_witness :
    (salt_and_pepper_noise cexFrame [0, 0, 0, 0, 0, 0] [0, 0, 0, 0, 0, 0]
        [0, 0, 0, 0, 0, 0] [0, 0, 0, 0, 0, 0]).h = cexFrame.h ∧
    (salt_and_pepper_noise cexFrame [0, 0, 0, 0, 0, 0] [0, 0, 0, 0, 0, 0]
        [0, 0, 0, 0, 0, 0] [0, 0, 0, 0, 0, 0]).w = cexFrame.w ∧
    ∀ y x c,
      (salt_and_pepper_noise cexFrame [0, 0, 0, 0, 0, 0] [0, 0, 0, 0, 0, 0]
          [0, 0, 0, 0, 0, 0] [0, 0, 0, 0, 0, 0]).px y x c =
        if (y, x) ∈ ([0, 0, 0, 0, 0, 0] : List Nat).zip [0, 0, 0, 0, 0, 0] then 0
        else if (y, x) ∈ ([0, 0, 0, 0, 0, 0] : List Nat).zip [0, 0, 0, 0, 0, 0] then 255
        else cexFrame.px y x c :=
  salt_pepper_characterization cexFrame 1 _ _ _ _
    (by simp [numSalt_cexFrame]) (by simp [numSalt_cexFrame])
    (by simp [numSalt_cexFrame]) (by simp [numSalt_cexFrame])
    (by decide) (by decide) (by decide) (by decide)

/-- C10: the last row and last column of the frame are never modified by
`salt_and_pepper_noise`, because `randint(0, dim - 1)` samples `[0, dim - 2]`. -/
theorem salt_pepper_last_row_col_unchanged (f : Frame) (amount : ℚ)
    (sR sC pR pC : List Nat) (hh : 2 ≤ f.h) (hw : 2 ≤ f.w)
    (hsR : sR.length = numSalt f amount) (hsC : sC.length = numSalt f amount)
    (hpR : pR.length = numSalt f amount) (hpC : pC.length = numSalt f amount)
    (h1 : randintOK f.h sR) (h2 : randintOK f.w sC)
    (h3 : randintOK f.h pR) (h4 : randintOK f.w pC) :
    ∀ y x c,
      (salt_and_pepper_noise f sR sC pR pC).px (f.h - 1) x c = f.px (f.h - 1) x c ∧
      (salt_and_pepper_noise f sR sC pR pC).px y (f.w - 1) c = f.px y (f.w - 1) c := by
  intro y x c
  have hrow : ∀ (l1 l2 : List Nat), randintOK f.h l1 → (f.h - 1, x) ∉ l1.zip l2 := by
    intro l1 l2 hok hmem
    have := hok _ (mem_zip_left hmem)
    omega
  have hcol : ∀ (l1 l2 : List Nat), randintOK f.w l2 → (y, f.w - 1) ∉ l1.zip l2 := by
    intro l1 l2 hok hmem
    have := hok _ (mem_zip_right hmem)
    omega
  constructor
  · simp only [salt_and_pepper_noise, writePixels]
    rw [if_neg (hrow pR pC h3), if_neg (hrow sR sC h1)]
  · simp only [salt_and_pepper_noise, writePixels]
    rw [if_neg (hcol pR pC h4), if_neg (hcol sR sC h2)]

theorem salt_pepper_last_row_col_unchanged_witness :
    (salt_and_pepper_noise cexFrame [0, 0, 0, 0, 0, 0] [0, 0, 0, 0, 0, 0]
        [0, 0, 0, 0, 0, 0] [0, 0, 0, 0, 0, 0]).px (cexFrame.h - 1) 0 0 =
      cexFrame.px (cexFrame.h - 1) 0 0 ∧
    (salt_and_pepper_noise cexFrame [0, 0, 0, 0, 0, 0] [0, 0, 0, 0, 0, 0]
        [0, 0, 0, 0, 0, 0] [0, 0, 0, 0, 0, 0]).px 0 (cexFrame.w - 1) 0 =
      cexFrame.px 0 (cexFrame.w - 1) 0 :=
  salt_pepper_last_row_col_unchanged cexFrame 1 _ _ _ _
    (by decide) (by decide)
    (by simp [numSalt_cexFrame]) (by simp [numSalt_cexFrame])
    (by simp [numSalt_cexFrame]) (by simp [numSalt_cexFrame])
    (by decide) (by decide) (by decide) (by decide) 0 0 0

/-- C3: with a level count dividing 256 evenly, every output channel value
of `color_banding` is a multiple of `256 / levels`, is at most the input
value, and is the nearest such multiple from below. -/
theorem color_banding_quantizes (f : Frame) (levels : Nat) (hl : levels ∣ 256)
    (y x c : Nat) :
    (256 / levels) ∣ (color_banding f levels).px y x c ∧
    (color_banding f levels).px y x c ≤ f.px y x c ∧
    f.px y x c < (color_banding f levels).px y x c + 256 / levels := by
  have hpos : 0 < levels := by
    rcases Nat.eq_zero_or_pos levels with h | h
    · subst h; simp at hl
    · exact h
  have hle : levels ≤ 256 := Nat.le_of_dvd (by norm_num) hl
  have hdpos : 0 < 256 / levels := Nat.div_pos hle hpos
  refine ⟨dvd_mul_left _ _, Nat.div_mul_le_self _ _, ?_⟩
  have hmod := Nat.div_add_mod (f.px y x c) (256 / levels)
  have hlt := Nat.mod_lt (f.px y x c) hdpos
  simp only [color_banding]
  rw [Nat.mul_comm (256 / levels)] at hmod
  generalize hq : f.px y x c / (256 / levels) * (256 / levels) = Q at hmod ⊢
  omega

theorem color_banding_quantizes_witness :
    (8 : Nat) ∣ 256 ∧
    ((256 / 8) ∣ (color_banding cexFrame 8).px 0 0 0 ∧
      (color_banding cexFrame 8).px 0 0 0 ≤ cexFrame.px 0 0 0 ∧
      cexFrame.px 0 0 0 < (color_banding cexFrame 8).px 0 0 0 + 256 / 8) :=
  ⟨by decide, color_banding_quantizes cexFrame 8 (by decide) 0 0 0⟩

/-- One row of `cv2.split`: the single-channel plane of channel `c`. -/
def splitChannel (f : Frame) (c : Nat) : Nat → Nat → Nat := fun y x => f.px y x c

/-- Model of `cv2.merge([b, g, r])`: recombine three single-channel planes. -/
def mergeChannels (h w : Nat) (b g r : Nat → Nat → Nat) : Frame :=
  ⟨h, w, fun y x c => if c = 0 then b y x else if c = 1 then g y x else r y x⟩

/-- Model of `np.roll(row, shift, axis=1)` restricted to one row of width `w`:
`out[x] = in[(x - shift) mod w]`. -/
def npRoll (w : Nat) (shift : Int) (row : Nat → Nat) (x : Nat) : Nat :=
  row ((((x : Int) - shift) % (w : Int)).toNat)

/-- Model of `chromatic_aberration` (lines 71-76): split into the three channel
planes, roll the first by `+shift` columns, the third by `-shift` columns,
leave the middle plane alone, and merge. -/
def chromatic_aberration (f : Frame) (shift : Int) : Frame :=
  mergeChannels f.h f.w
    (fun y => npRoll f.w shift (splitChannel f 0 y))
    (splitChannel f 1)
    (fun y => npRoll f.w (-shift) (splitChannel f 2 y))

/-- C5: `chromatic_aberration` keeps the dimensions, circularly shifts
channel 0 by `+shift` columns (`out[x] = in[(x - shift) mod w]`), leaves
channel 1 untouched, and circularly shifts channel 2 by `-shift` columns. -/
theorem chromatic_aberration_splits_shifts (f : Frame) (shift : Int) (y x : Nat) :
    (chromatic_aberration f shift).h = f.h ∧
    (chromatic_aberration f shift).w = f.w ∧
    (chromatic_aberration f shift).px y x 0 = f.px y ((((x : Int) - shift) % (f.w : Int)).toNat) 0 ∧
    (chromatic_aberration f shift).px y x 1 = f.px y x 1 ∧
    (chromatic_aberration f shift).px y x 2 = f.px y ((((x : Int) + shift) % (f.w : Int)).toNat) 2 := by
  refine ⟨rfl, rfl, rfl, rfl, ?_⟩
  show f.px y ((((x : Int) - -shift) % (f.w : Int)).toNat) 2 = _
  rw [sub_neg_eq_add]

/-- Composing two opposite circular shifts is the identity on a row. -/
theorem npRoll_npRoll (w : Nat) (s : Int) (row : Nat → Nat) (x : Nat) (hx : x < w) :
    npRoll w (-s) (npRoll w s row) x = row x := by
  have hw : 0 < w := Nat.lt_of_le_of_lt (Nat.zero_le x) hx
  have hw0 : (w : Int) ≠ 0 := by exact_mod_cast hw.ne'
  simp only [npRoll, sub_neg_eq_add]
  rw [Int.toNat_of_nonneg (Int.emod_nonneg ((x : Int) + s) hw0)]
  rw [Int.sub_emod, Int.emod_emod_of_dvd _ dvd_rfl, ← Int.sub_emod]
  rw [add_sub_cancel_right]
  rw [Int.emod_eq_of_lt (by exact_mod_cast Nat.zero_le x) (by exact_mod_cast hx)]
  simp

/-- C6: applying `chromatic_aberration` with `shift` and then with `-shift`
restores every in-range pixel of every channel. -/
theorem chromatic_aberration_roundtrip (f : Frame) (shift : Int) (y x c : Nat)
    (hx : x < f.w) (hc : c < 3) :
    (chromatic_aberration (chromatic_aberration f shift) (-shift)).px y x c = f.px y x c := by
  interval_cases c
  · exact npRoll_npRoll f.w shift (splitChannel f 0 y) x hx
  · rfl
  · show npRoll f.w (- -shift) (fun x2 => npRoll f.w (-shift) (splitChannel f 2 y) x2) x = _
    rw [neg_neg]
    have h := npRoll_npRoll f.w (-shift) (splitChannel f 2 y) x hx
    rw [neg_neg] at h
    exact h

theorem chromatic_aberration_roundtrip_witness :
    (0 : Nat) < cexFrame.w ∧ (0 : Nat) < 3 ∧
    (chromatic_aberration (chromatic_aberration cexFrame 1) (-1)).px 0 0 0 =
      cexFrame.px 0 0 0 :=
  ⟨by decide, by decide, chromatic_aberration_roundtrip cexFrame 1 0 0 0 (by decide) (by decide)⟩

/-- OpenCV default border `BORDER_REFLECT_101` for a single out-of-range
step (`gfedcb|abcdefgh|gfedcba`); sufficient for kernels smaller than the
frame, which is the only regime the pipeline uses. -/
def reflect101 (n : Nat) (i : Int) : Nat :=
  (if i < 0 then -i else if (n : Int) ≤ i then 2 * ((n : Int) - 1) - i else i).toNat

/-- Rounding of `cvRound`: OpenCV rounds to the nearest integer, ties to even. -/
def cvRound (q : ℚ) : Int :=
  if q - ⌊q⌋ < 1 / 2 then ⌊q⌋
  else if 1 / 2 < q - ⌊q⌋ then ⌊q⌋ + 1
  else if Even ⌊q⌋ then ⌊q⌋ else ⌊q⌋ + 1

/-- Saturation of a filter output back into uint8. -/
def clampU8 (z : Int) : Nat := (min (max z 0) 255).toNat

/-- The motion-blur kernel entry at row `r` (lines 21-23): a `k × k` matrix
whose row `(k - 1) / 2` is all ones, divided by `k`; entries do not depend
on the column. -/
def kernelVal (k r : Nat) : ℚ := if r = (k - 1) / 2 then 1 / (k : ℚ) else 0

/-- The correlation sum of `cv2.filter2D` at pixel `(y, x)`, channel `c`:
kernel anchored at its center `(k / 2, k / 2)`, reflect-101 borders. -/
def blurSum (f : Frame) (k : Nat) (y x c : Nat) : ℚ :=
  ((List.range k).map (fun (r : Nat) =>
    ((List.range k).map (fun (col : Nat) =>
      kernelVal k r *
        (f.px (reflect101 f.h ((y : Int) + (r : Int) - ((k / 2 : Nat) : Int)))
          (reflect101 f.w ((x : Int) + (col : Int) - ((k / 2 : Nat) : Int))) c : ℚ))).sum)).sum

/-- Model of `motion_blur` (lines 20-26): correlation with the normalized
center-row line kernel, rounded and saturated back to uint8. -/
def motion_blur (f : Frame) (k : Nat) : Frame :=
  ⟨f.h, f.w, fun y x c => clampU8 (cvRound (blurSum f k y x c))⟩

theorem reflect101_in_range (n y : Nat) (hy : y < n) : reflect101 n (y : Int) = y := by
  simp only [reflect101]
  rw [if_neg (by omega), if_neg (by exact_mod_cast Nat.not_le.mpr hy)]
  exact Int.toNat_natCast y

theorem cvRound_natCast (n : Nat) : cvRound (n : ℚ) = (n : Int) := by
  simp only [cvRound]
  rw [Int.floor_natCast]
  norm_num

theorem blurSum_one (f : Frame) (y x c : Nat) (hy : y < f.h) (hx : x < f.w) :
    blurSum f 1 y x c = (f.px y x c : ℚ) := by
  have hargy : (y : Int) + ((0 : Nat) : Int) - ((1 / 2 : Nat) : Int) = ((y : Nat) : Int) := by
    norm_num
  have hargx : (x : Int) + ((0 : Nat) : Int) - ((1 / 2 : Nat) : Int) = ((x : Nat) : Int) := by
    norm_num
  simp only [blurSum]
  rw [show List.range 1 = [0] from rfl]
  simp only [List.map_cons, List.map_nil, List.sum_cons, List.sum_nil, add_zero]
  rw [hargy, hargx, reflect101_in_range f.h y hy, reflect101_in_range f.w x hx]
  have hker : kernelVal 1 0 = 1 := by
    simp [kernelVal]
  rw [hker, one_mul]

/-- C7: with kernel size 1 the kernel is the single entry 1, so
`motion_blur` is the identity on every pixel of a valid uint8 frame. -/
theorem motion_blur_one_identity (f : Frame)
    (hvalid : ∀ y x c, f.px y x c ≤ 255) :
    (motion_blur f 1).h = f.h ∧ (motion_blur f 1).w = f.w ∧
    ∀ y x c, y < f.h → x < f.w → (motion_blur f 1).px y x c = f.px y x c := by
  refine ⟨rfl, rfl, fun y x c hy hx => ?_⟩
  show clampU8 (cvRound (blurSum f 1 y x c)) = f.px y x c
  rw [blurSum_one f y x c hy hx, cvRound_natCast]
  have hb := hvalid y x c
  simp only [clampU8]
  omega

theorem cexFrame_valid : ∀ y x c, cexFrame.px y x c ≤ 255 := by
  intro y x c
  show (7 : Nat) ≤ 255
  decide

theorem motion_blur_one_identity_witness :
    (∀ y x c, cexFrame.px y x c ≤ 255) ∧
    ((motion_blur cexFrame 1).h = cexFrame.h ∧ (motion_blur cexFrame 1).w = cexFrame.w ∧
      ∀ y x c, y < cexFrame.h → x < cexFrame.w →
        (motion_blur cexFrame 1).px y x c = cexFrame.px y x c) :=
  ⟨cexFrame_valid, motion_blur_one_identity cexFrame cexFrame_valid⟩

/-- Model of `gaussian_noise` (lines 4-9).  `cv2.randn` fills a same-shaped uint8
noise array (modelled as the injected `noise` function) and `cv2.add` is
saturating uint8 addition. -/
def gaussian_noise (f : Frame) (noise : Nat → Nat → Nat → Nat) : Frame :=
  ⟨f.h, f.w, fun y x c => min (f.px y x c + noise y x c) 255⟩

/-- Model of `compression_artifacts` (lines 12-17).  The JPEG encode/decode round
trip is a library call modelled as the injected `jpegRT`; `cv2.imdecode`
returns an image with the encoded frame's dimensions, so the output frame
keeps `f.h × f.w`. -/
def compression_artifacts (jpegRT : Frame → Nat → Nat → Nat → Nat) (f : Frame) : Frame :=
  ⟨f.h, f.w, jpegRT f⟩

/-- Model of `lens_distortion` (lines 48-56).  `cv2.undistort` resamples through the
inverse distortion map (injected as `undistortPx`) into a destination image
of the same size as the source. -/
def lens_distortion (undistortPx : Frame → ℚ → ℚ → Nat → Nat → Nat → Nat)
    (f : Frame) (k1 k2 : ℚ) : Frame :=
  ⟨f.h, f.w, undistortPx f k1 k2⟩

/-- Model of `vignetting` (lines 59-68).  The normalized Gaussian mask built from
`cv2.getGaussianKernel` is injected as `mask`; each channel is multiplied
by it and the float result is truncated into the uint8 output array. -/
def vignetting (mask : Nat → Nat → ℚ) (f : Frame) : Frame :=
  ⟨f.h, f.w, fun y x c => (⌊(f.px y x c : ℚ) * mask y x⌋).toNat % 256⟩

/-- One filled `cv2.circle` call (line 87), rasterized as the Euclidean
disk of the given radius around `(cx, cy)`, painted in gray value `col` on
all three channels. -/
def drawCircle (f : Frame) (cx cy rad col : Nat) : Frame :=
  ⟨f.h, f.w, fun y x c =>
    if ((x : Int) - (cx : Int)) ^ 2 + ((y : Int) - (cy : Int)) ^ 2 ≤ ((rad : Int)) ^ 2
    then col else f.px y x c⟩

/-- Model of `dust_dirt_particles` (lines 79-88) with the per-particle random draws
`(x, y, radius, gray)` passed explicitly; particles are painted in order
onto a copy of the frame, later circles overwriting earlier ones. -/
def dust_dirt_particles (f : Frame) (particles : List (Nat × Nat × Nat × Nat)) : Frame :=
  particles.foldl (fun acc p => drawCircle acc p.1 p.2.1 p.2.2.1 p.2.2.2) f

theorem dust_dims (particles : List (Nat × Nat × Nat × Nat)) (f : Frame) :
    (dust_dirt_particles f particles).h = f.h ∧ (dust_dirt_particles f particles).w = f.w := by
  induction particles generalizing f with
  | nil => exact ⟨rfl, rfl⟩
  | cons p rest ih =>
    show (dust_dirt_particles (drawCircle f p.1 p.2.1 p.2.2.1 p.2.2.2) rest).h = f.h ∧
      (dust_dirt_particles (drawCircle f p.1 p.2.1 p.2.2.1 p.2.2.2) rest).w = f.w
    exact ih (drawCircle f p.1 p.2.1 p.2.2.1 p.2.2.2)

/-- C8: every pixel transform returns a frame with the input's height and
width (the channel count is fixed at 3 throughout the model). -/
theorem transforms_preserve_dims :
    (∀ f noise, (gaussian_noise f noise).h = f.h ∧ (gaussian_noise f noise).w = f.w) ∧
    (∀ jpegRT f, (compression_artifacts jpegRT f).h = f.h ∧
      (compression_artifacts jpegRT f).w = f.w) ∧
    (∀ f k, (motion_blur f k).h = f.h ∧ (motion_blur f k).w = f.w) ∧
    (∀ f levels, (color_banding f levels).h = f.h ∧ (color_banding f levels).w = f.w) ∧
    (∀ f sR sC pR pC, (salt_and_pepper_noise f sR sC pR pC).h = f.h ∧
      (salt_and_pepper_noise f sR sC pR pC).w = f.w) ∧
    (∀ undistortPx f k1 k2, (lens_distortion undistortPx f k1 k2).h = f.h ∧
      (lens_distortion undistortPx f k1 k2).w = f.w) ∧
    (∀ mask f, (vignetting mask f).h = f.h ∧ (vignetting mask f).w = f.w) ∧
    (∀ f shift, (chromatic_aberration f shift).h = f.h ∧
      (chromatic_aberration f shift).w = f.w) ∧
    (∀ f particles, (dust_dirt_particles f particles).h = f.h ∧
      (dust_dirt_particles f particles).w = f.w) :=
  ⟨fun _ _ => ⟨rfl, rfl⟩, fun _ _ => ⟨rfl, rfl⟩, fun _ _ => ⟨rfl, rfl⟩,
    fun _ _ => ⟨rfl, rfl⟩, fun _ _ _ _ _ => ⟨rfl, rfl⟩, fun _ _ _ _ => ⟨rfl, rfl⟩,
    fun _ _ => ⟨rfl, rfl⟩, fun _ _ => ⟨rfl, rfl⟩,
    fun f particles => dust_dims particles f⟩

/-- Observable pipeline events of `add_artifacts`: console messages, sink
creation, video-frame writes, still-image writes and sink release.  Sinks
and images are keyed by the transform's base name (the files on disk are
the base name plus `.mp4` resp. `.png`). -/
inductive Ev where
  | msg (s : String)
  | openSink (name : String)
  | sinkWrite (name : String) (fr : Frame)
  | imageWrite (name : String) (fr : Frame)
  | closeSink (name : String)

/-- The ten output sinks opened in lines 108-117, in source order. -/
def sinkBaseNames : List String :=
  [("gaussian_noise"), ("compression"), ("motion_blur"), ("color_banding"),
   ("salt_pepper_noise"), ("lens_distortion"), ("vignetting"),
   ("chromatic_aberration"), ("dust_particles"), ("frame_dropping")]

/-- Per-run configuration of the frame loop: the nine named per-frame
transforms (their per-frame randomness folded into the frame index), the
frame-drop probability, and the `np.random.rand()` draw consumed by
`simulate_frame_dropping` on each iteration. -/
structure LoopCfg where
  transforms : List (String × (Nat → Frame → Frame))
  dropRate : ℚ
  dropDraws : Nat → ℚ

/-- The writes a single loop iteration performs for the nine transform
sinks (lines 130-182): write the transformed frame to the sink and, on the
first frame only, also save it as a still image. -/
def transformWrites (i : Nat) (fr : Frame) :
    List (String × (Nat → Frame → Frame)) → List Ev
  | [] => []
  | (name, T) :: rest =>
    Ev.sinkWrite name (T i fr) ::
      ((if i = 0 then [Ev.imageWrite name (T i fr)] else []) ++ transformWrites i fr rest)

/-- Model of `simulate_frame_dropping` (lines 91-93): write the original frame to
the frame-dropping sink iff `np.random.rand() > drop_rate`. -/
def simulate_frame_dropping (fr : Frame) (draw dropRate : ℚ) : List Ev :=
  if dropRate < draw then [Ev.sinkWrite ("frame_dropping") fr] else []

/-- One iteration of the frame loop (lines 125-192): the nine transform
writes, the frame-dropping forwarder, and the every-10-frames progress
message (`frame_number` has already been incremented when tested). -/
def processFrame (cfg : LoopCfg) (total i : Nat) (fr : Frame) : List Ev :=
  transformWrites i fr cfg.transforms ++
    simulate_frame_dropping fr (cfg.dropDraws i) cfg.dropRate ++
    (if (i + 1) % 10 = 0 then
      [Ev.msg (("Processed ") ++ toString (i + 1) ++ ("/") ++ toString total ++ (" frames"))]
    else [])

/-- The frame loop, processing decoded frames in order starting from frame
index `i`. -/
def runLoop (cfg : LoopCfg) (total : Nat) : Nat → List Frame → List Ev
  | _, [] => []
  | i, fr :: rest => processFrame cfg total i fr ++ runLoop cfg total (i + 1) rest

/-- Model of `add_artifacts` (lines 96-205) as an event trace.  `opened` is whether
`cap.isOpened()`; on failure the function prints the error naming the path
and returns before any sink or image is created.  On success it opens the
ten sinks, prints the frame count, runs the loop over the decoded frames,
and releases everything. -/
def add_artifacts (opened : Bool) (path : String) (cfg : LoopCfg)
    (frames : List Frame) : List Ev :=
  if opened then
    (sinkBaseNames.map Ev.openSink) ++
      [Ev.msg (("Processing ") ++ toString frames.length ++ (" frames to add artifacts..."))] ++
      runLoop cfg frames.length 0 frames ++
      (sinkBaseNames.map Ev.closeSink) ++
      [Ev.msg ("Artifact addition complete")]
  else
    [Ev.msg (("Error opening video file: ") ++ path)]

/-- Select the frames a trace writes to the frame-dropping sink. -/
def dropEv (e : Ev) : Option Frame :=
  match e with
  | Ev.sinkWrite n fr => if n = ("frame_dropping") then some fr else none
  | _ => none

/-- Contents of the frame-dropping sink after a run with trace `tr`. -/
def dropSinkFrames (tr : List Ev) : List Frame := tr.filterMap dropEv

/-- Reference model of the frame-dropping sink: frame `i` is forwarded
unmodified iff its `rand()` draw exceeds the drop rate. -/
def dropModel (cfg : LoopCfg) : Nat → List Frame → List Frame
  | _, [] => []
  | i, fr :: rest =>
    (if cfg.dropRate < cfg.dropDraws i then [fr] else []) ++ dropModel cfg (i + 1) rest

theorem dropSinkFrames_append (a b : List Ev) :
    dropSinkFrames (a ++ b) = dropSinkFrames a ++ dropSinkFrames b :=
  List.filterMap_append a b dropEv

theorem dropSinkFrames_transformWrites (i : Nat) (fr : Frame) :
    ∀ ts : List (String × (Nat → Frame → Frame)),
      (∀ p ∈ ts, p.1 ≠ ("frame_dropping")) →
      dropSinkFrames (transformWrites i fr ts) = [] := by
  intro ts
  induction ts with
  | nil => intro _; rfl
  | cons p rest ih =>
    intro h
    obtain ⟨name, T⟩ := p
    have hhead : ¬ (name = ("frame_dropping")) := h (name, T) (List.mem_cons_self _ _)
    have htail := ih (fun q hq => h q (List.mem_cons_of_mem _ hq))
    show dropSinkFrames (Ev.sinkWrite name (T i fr) ::
      ((if i = 0 then [Ev.imageWrite name (T i fr)] else []) ++ transformWrites i fr rest)) = []
    by_cases h0 : i = 0 <;>
      simp_all [dropSinkFrames, List.filterMap_cons, List.filterMap_append, dropEv]

theorem dropSinkFrames_simulate (fr : Frame) (draw rate : ℚ) :
    dropSinkFrames (simulate_frame_dropping fr draw rate) =
      if rate < draw then [fr] else [] := by
  by_cases h : rate < draw <;>
    simp [simulate_frame_dropping, dropSinkFrames, List.filterMap_cons, dropEv, h]

theorem dropSinkFrames_runLoop (cfg : LoopCfg) (total : Nat)
    (hname : ∀ p ∈ cfg.transforms, p.1 ≠ ("frame_dropping")) :
    ∀ (frames : List Frame) (i : Nat),
      dropSinkFrames (runLoop cfg total i frames) = dropModel cfg i frames := by
  intro frames
  induction frames with
  | nil => intro i; rfl
  | cons fr rest ih =>
    intro i
    show dropSinkFrames (processFrame cfg total i fr ++ runLoop cfg total (i + 1) rest) =
      (if cfg.dropRate < cfg.dropDraws i then [fr] else []) ++ dropModel cfg (i + 1) rest
    rw [dropSinkFrames_append, ih]
    unfold processFrame
    rw [dropSinkFrames_append, dropSinkFrames_append]
    rw [dropSinkFrames_transformWrites i fr cfg.transforms hname]
    rw [dropSinkFrames_simulate]
    have hprog : dropSinkFrames
        (if (i + 1) % 10 = 0 then
          [Ev.msg (("Processed ") ++ toString (i + 1) ++ ("/") ++ toString total ++ (" frames"))]
        else []) = [] := by
      by_cases hp : (i + 1) % 10 = 0 <;> simp [dropSinkFrames, List.filterMap_cons, dropEv, hp]
    rw [hprog]
    simp

theorem dropModel_all_pass (cfg : LoopCfg) (h0 : cfg.dropRate = 0)
    (hpos : ∀ i, 0 < cfg.dropDraws i) :
    ∀ (frames : List Frame) (i : Nat), dropModel cfg i frames = frames := by
  intro frames
  induction frames with
  | nil => intro i; rfl
  | cons fr rest ih =>
    intro i
    show (if cfg.dropRate < cfg.dropDraws i then [fr] else []) ++ dropModel cfg (i + 1) rest =
      fr :: rest
    rw [if_pos (by rw [h0]; exact hpos i), ih]
    rfl

theorem dropModel_none_pass (cfg : LoopCfg) (h1 : cfg.dropRate = 1)
    (hlt : ∀ i, cfg.dropDraws i < 1) :
    ∀ (frames : List Frame) (i : Nat), dropModel cfg i frames = [] := by
  intro frames
  induction frames with
  | nil => intro i; rfl
  | cons fr rest ih =>
    intro i
    show (if cfg.dropRate < cfg.dropDraws i then [fr] else []) ++ dropModel cfg (i + 1) rest = []
    rw [if_neg (by rw [h1]; exact not_lt.mpr (le_of_lt (hlt i))), ih]
    rfl

theorem dropSinkFrames_opens : dropSinkFrames (sinkBaseNames.map Ev.openSink) = [] := rfl

theorem dropSinkFrames_closes : dropSinkFrames (sinkBaseNames.map Ev.closeSink) = [] := rfl

theorem dropSinkFrames_msg (s : String) : dropSinkFrames [Ev.msg s] = [] := rfl

/-- C2 (amended): for a successfully opened source, the frame-dropping
sink holds exactly the frames whose `rand()` draw strictly exceeds
`drop_rate`, each forwarded bit-identical; hence with `drop_rate = 1` it is
always empty, and with `drop_rate = 0` it equals the source *provided no
draw is exactly 0.0* (`np.random.rand()` ranges over `[0, 1)`, and the
strict comparison `rand() > 0.0` drops a frame on a zero draw). -/
theorem frame_dropping_forwarding (cfg : LoopCfg) (path : String) (frames : List Frame)
    (hname : ∀ p ∈ cfg.transforms, p.1 ≠ ("frame_dropping")) :
    dropSinkFrames (add_artifacts true path cfg frames) = dropModel cfg 0 frames ∧
    (cfg.dropRate = 0 → (∀ i, 0 < cfg.dropDraws i) →
      dropSinkFrames (add_artifacts true path cfg frames) = frames) ∧
    (cfg.dropRate = 1 → (∀ i, cfg.dropDraws i < 1) →
      dropSinkFrames (add_artifacts true path cfg frames) = []) := by
  have hmain : dropSinkFrames (add_artifacts true path cfg frames) = dropModel cfg 0 frames := by
    show dropSinkFrames ((sinkBaseNames.map Ev.openSink) ++
      [Ev.msg (("Processing ") ++ toString frames.length ++ (" frames to add artifacts..."))] ++
      runLoop cfg frames.length 0 frames ++
      (sinkBaseNames.map Ev.closeSink) ++
      [Ev.msg ("Artifact addition complete")]) = _
    rw [dropSinkFrames_append, dropSinkFrames_append, dropSinkFrames_append,
      dropSinkFrames_append, dropSinkFrames_opens, dropSinkFrames_closes,
      dropSinkFrames_msg, dropSinkFrames_msg,
      dropSinkFrames_runLoop cfg frames.length hname frames 0]
    simp
  refine ⟨hmain, fun h0 hpos => ?_, fun h1 hlt => ?_⟩
  · rw [hmain, dropModel_all_pass cfg h0 hpos frames 0]
  · rw [hmain, dropModel_none_pass cfg h1 hlt frames 0]

/-- Concrete loop configuration used for the C2 counterexample and witness:
one real transform, `drop_rate = 0`, and a `rand()` stream. -/
def dropCexCfg : LoopCfg :=
  { transforms := [(("color_banding"), fun _ fr => color_banding fr 8)]
    dropRate := 0
    dropDraws := fun _ => 0 }

/-- Same configuration but with strictly positive `rand()` draws. -/
def dropWitCfg : LoopCfg :=
  { transforms := [(("color_banding"), fun _ fr => color_banding fr 8)]
    dropRate := 0
    dropDraws := fun _ => 1 }

/-- C2 counterexample: a 1-frame source run with `drop_rate = 0.0` and the
reachable draw `rand() = 0.0` leaves the frame-dropping sink empty, not
with "exactly N = 1 frames" as claimed. -/
theorem frame_dropping_zero_rate_counterexample :
    dropSinkFrames (add_artifacts true ("input_video.mp4") dropCexCfg [cexFrame]) = [] ∧
    ([cexFrame] : List Frame) ≠ [] := by
  constructor
  · rfl
  · simp

theorem frame_dropping_forwarding_witness :
    dropSinkFrames (add_artifacts true ("input_video.mp4") dropWitCfg [cexFrame]) =
      dropModel dropWitCfg 0 [cexFrame] ∧
    (dropWitCfg.dropRate = 0 → (∀ i, 0 < dropWitCfg.dropDraws i) →
      dropSinkFrames (add_artifacts true ("input_video.mp4") dropWitCfg [cexFrame]) =
        [cexFrame]) ∧
    (dropWitCfg.dropRate = 1 → (∀ i, dropWitCfg.dropDraws i < 1) →
      dropSinkFrames (add_artifacts true ("input_video.mp4") dropWitCfg [cexFrame]) = []) :=
  frame_dropping_forwarding dropWitCfg ("input_video.mp4") [cexFrame]
    (by intro p hp; simp only [dropWitCfg] at hp; rw [List.mem_singleton] at hp; rw [hp]; decide)

/-- C4: when the source fails to open, the run reports the error message
naming the path and produces nothing else: no sink is opened, no frame is
written, no still image is saved. -/
theorem add_artifacts_open_failure (path : String) (cfg : LoopCfg) (frames : List Frame) :
    add_artifacts false path cfg frames = [Ev.msg (("Error opening video file: ") ++ path)] ∧
    ∀ e ∈ add_artifacts false path cfg frames,
      (∀ n, e ≠ Ev.openSink n) ∧ (∀ n fr, e ≠ Ev.sinkWrite n fr) ∧
      (∀ n fr, e ≠ Ev.imageWrite n fr) := by
  refine ⟨rfl, fun e he => ?_⟩
  have : e = Ev.msg (("Error opening video file: ") ++ path) := by
    simpa [add_artifacts] using he
  subst this
  refine ⟨fun n h => ?_, fun n fr h => ?_, fun n fr h => ?_⟩ <;> cases h
